import Mathlib

/-!
Shallow embedding of the CanvasText engine (canonical revision: the module
exporting `drawText`, `makeWordWrapRows`, `renderWordWrapRows`,
`resolvePadding`, `resolveColor`, `resolveFont`, `fontHeight`,
`canvasFontHeight`, `canvasFontHeightForText`).

JavaScript strings are modelled as `List Char` (`Str`), numbers as `ℚ`
(widths, coordinates) and `ℤ` (pixel-row indices and the cached pixel-scan
metrics).  The drawing surface (`context.measureText`, the off-screen probe
canvas pixel readback) is an external collaborator and is modelled as an
environment of functions.  Fallible operations (the JS `TypeError` thrown by
`resolveColor` on a malformed hex color, `parseInt` returning `NaN`) are
modelled with `Option`.
-/

/-! Basic lemmas about `jsSplit` and `sJoin`. -/

/-! Invariant lemmas about the greedy wrap fold. -/

/-!
The font-metrics engine.  The drawing surface is an external collaborator:
`measure font text` models `context.measureText(text).width` with
`context.font = font`, and `probeAlpha font text x y` models the alpha
channel read back (`getImageData(...).data[((width*y)+x)*4+3]`) at pixel
`(x, y)` after `fillText(text, 10, 10)` of the probe string on the
off-screen canvas.
-/

/-! The row compositor (`renderWordWrapRows`), the entry point (`drawText`)
and the color resolver (`resolveColor`). -/

/-- JS strings as lists of characters. -/
abbrev Str := List Char

/-- A natural number as a rational (kernel-computable form). -/
def qNat (n : ℕ) : ℚ := mkRat (Int.ofNat n) 1

/-- An integer as a rational (kernel-computable form). -/
def qInt (z : ℤ) : ℚ := mkRat z 1

namespace CanvasText

/-- `text.split(/ /)`: split on every single space character, keeping empty
fragments (JS semantics: `"a  b".split(/ /) = ["a","","b"]`, `"".split(/ /)
= [""]`). -/
def jsSplit : Str → List Str
  | [] => [[]]
  | c :: t =>
    match jsSplit t with
    | [] => [[]]
    | w :: ws => if c = ' ' then [] :: w :: ws else (c :: w) :: ws

/-- `parts.join(' ')`: join with a single space between fragments. -/
def sJoin : List Str → Str
  | [] => []
  | w :: ws =>
    match ws with
    | [] => w
    | _ :: _ => w ++ ' ' :: sJoin ws

/-- Source constant `DEFAULT_LINE_HEIGHT: 1.5`. -/
def DEFAULT_LINE_HEIGHT : ℚ := 3 / 2

/-- Source constant `DEFAULT_FONT_SIZE: 12`. -/
def DEFAULT_FONT_SIZE : ℕ := 12

/-- Source constant `DEFAULT_FONT_FAMILY: 'Comic Sans MS'`. -/
def DEFAULT_FONT_FAMILY : Str := ("Comic Sans MS").toList

/-- Source constant `M_HEIGHT_FACTOR: 1.2` (used only by the dead
`fontSize`/`measureM` branches of `fontHeight`; kept for fidelity). -/
def M_HEIGHT_FACTOR : ℚ := 6 / 5

/-- The text object passed to `drawText` and friends.  Optional JS fields are
`Option`; absent means `undefined`. -/
structure TextObj where
  text : Str := []
  font : Option Str := none
  fontSize : Option ℕ := none
  fontFamily : Option Str := none
  align : Option Str := none
  valign : Option Str := none
  padding : Option ℚ := none
  paddingLeft : Option ℚ := none
  paddingRight : Option ℚ := none
  paddingTop : Option ℚ := none
  paddingBottom : Option ℚ := none
  lineHeight : Option ℚ := none
  color : Str := []
  alpha : Option Str := none

/-- The resolved `_padding` record `{left, right, top, bottom}`. -/
structure Pad where
  left : ℚ
  right : ℚ
  top : ℚ
  bottom : ℚ
deriving DecidableEq, Repr

/--
`resolvePadding(object)` (source lines 181-189): each side is the explicit
per-side value when defined (`typeof object.paddingX !== 'undefined'`), else
the shorthand `object.padding` when defined, else 0.
-/
def resolvePadding (o : TextObj) : Pad :=
  let defaultPadding : ℚ := match o.padding with | some p => p | none => 0
  { left := match o.paddingLeft with | some p => p | none => defaultPadding
    right := match o.paddingRight with | some p => p | none => defaultPadding
    top := match o.paddingTop with | some p => p | none => defaultPadding
    bottom := match o.paddingBottom with | some p => p | none => defaultPadding }

/-- Decimal representation of a natural number, as a `Str`. -/
def natRepr (n : ℕ) : Str := (Nat.repr n).toList

/-- The single-quote character `'` (char code 39), written numerically. -/
def quoteChar : Char := Char.ofNat 39

/-- The synthesized font string `fontSize + "pt '" + fontFamily + "'"` of
`resolveFont`'s else-branch, with JS-truthiness defaults (`0` and `''` fall
back to the defaults, like `undefined`). -/
def defaultFontStr (o : TextObj) : Str :=
  let fontSize : ℕ :=
    match o.fontSize with
    | some n => if n = 0 then DEFAULT_FONT_SIZE else n
    | none => DEFAULT_FONT_SIZE
  let fontFamily : Str :=
    match o.fontFamily with
    | some f => if f = [] then DEFAULT_FONT_FAMILY else f
    | none => DEFAULT_FONT_FAMILY
  natRepr fontSize ++ ("pt ").toList ++ [quoteChar] ++ fontFamily ++ [quoteChar]

/-- `resolveFont(object)` (source lines 162-170): `object.font` when truthy,
else the synthesized `"<fontSize>pt '<fontFamily>'"` string. -/
def resolveFont (o : TextObj) : Str :=
  match o.font with
  | some f => if f = [] then defaultFontStr o else f
  | none => defaultFontStr o

/-- `calculateRowWidth(context, object, text)` (source lines 205-207):
measured text width plus left and right resolved padding.  `measure` is the
drawing surface's `context.measureText(text).width` under the active font. -/
def calculateRowWidth (measure : Str → ℚ) (pad : Pad) (text : Str) : ℚ :=
  measure text + pad.left + pad.right

/-- The mutable locals `(rowWords, rows)` of `makeWordWrapRows`. -/
structure WrapSt where
  rowWords : List Str
  rows : List Str

/-- One iteration of the `words.forEach` loop in `makeWordWrapRows`
(source lines 148-155): measure the candidate row `rowWords.concat(word)
.join(' ')`; if it reaches the canvas width and the accumulator is non-empty,
close the current row and start a fresh one with `word`; otherwise append
`word` to the accumulator. -/
def wrapStep (measure : Str → ℚ) (W : ℚ) (pad : Pad) (st : WrapSt) (word : Str) : WrapSt :=
  let rowWidth := calculateRowWidth measure pad (sJoin (st.rowWords ++ [word]))
  if W ≤ rowWidth ∧ st.rowWords ≠ [] then
    { rowWords := [word], rows := st.rows ++ [sJoin st.rowWords] }
  else
    { rowWords := st.rowWords ++ [word], rows := st.rows }

/-- The final flush of `makeWordWrapRows` (source lines 156-158): push the
accumulator as a last row when it is non-empty. -/
def flushRows (st : WrapSt) : List Str :=
  if st.rowWords ≠ [] then st.rows ++ [sJoin st.rowWords] else st.rows

/-- `makeWordWrapRows(context, object)` (source lines 144-160): split the
text on single spaces, fold the greedy wrap step over the words, and flush
the final non-empty accumulator.  `W` is `context.canvas.width`. -/
def makeWordWrapRows (measure : Str → ℚ) (W : ℚ) (pad : Pad) (text : Str) : List Str :=
  let words := jsSplit text
  flushRows (words.foldl (wrapStep measure W pad) ⟨[], []⟩)

/-- Helper: the length of a `Str`, as a rational width (a simple concrete
text-measurement function used in witnesses). -/
def lenMeasure (s : Str) : ℚ := qNat s.length

/-- Helper: zero padding on all four sides. -/
def pad0 : Pad := ⟨0, 0, 0, 0⟩

/-- Helper: the all-default text object (every optional field undefined). -/
def baseObj : TextObj := {}

/-- The drawing-surface environment. -/
structure Env where
  measure : Str → Str → ℚ
  probeAlpha : Str → Str → ℕ → ℕ → ℕ

/-- The three module-level caches `fontHeightCache`, `fontOffsetCache`,
`fontDescenderCache`, keyed by the exact font identity string; `none` models
a missing (`undefined`) entry. -/
structure Caches where
  heightC : Str → Option ℤ
  offsetC : Str → Option ℤ
  descenderC : Str → Option ℤ

/-- JS property assignment `cache[key] = v`. -/
def updateFn (m : Str → Option ℤ) (k : Str) (v : ℤ) : Str → Option ℤ :=
  fun s => if s = k then some v else m s

/-- The initial (all-empty) caches `{}`. -/
def emptyCaches : Caches := ⟨fun _ => none, fun _ => none, fun _ => none⟩

/-- JS falsiness of a cache read, as in `if (!CanvasText.fontHeightCache
[context.font])`: a missing entry is falsy, and so is a stored `0`. -/
def jsFalsyCache : Option ℤ → Bool
  | none => true
  | some z => z == 0

/-- The radix-10 leading-digit fragment of JS `parseInt` (`none` models
`NaN`).  `parseInt` is an external builtin; the source only applies it to
`resolveFont` output, which starts with decimal digits, so the
whitespace/sign handling of the full builtin is irrelevant here. -/
def parseIntLeading (s : Str) : Option ℕ :=
  let ds := s.takeWhile Char.isDigit
  if ds = [] then none
  else some (ds.foldl (fun a c => a * 10 + (c.toNat - ('0').toNat)) 0)

/-- The pixel scan of `canvasFontHeightForText` (source lines 262-276):
iterate `y` over `[0, h)`, `x` over `[0, w)`; whenever the alpha at `(x, y)`
is positive, lower `first` to `y` and raise `last` to `y`.  `first` starts
at `canvas.height`, `last` at 0.  Returns `(first, last)`. -/
def scanBounds (w h : ℕ) (alpha : ℕ → ℕ → ℕ) : ℤ × ℤ :=
  (List.range h).foldl
    (fun fl y =>
      (List.range w).foldl
        (fun fl x =>
          if 0 < alpha x y then
            (if Int.ofNat y < fl.1 then Int.ofNat y else fl.1,
             if fl.2 < Int.ofNat y then Int.ofNat y else fl.2)
          else fl)
        fl)
    (Int.ofNat h, 0)

/-- The off-screen probe canvas width `context.measureText(text).width * 2`
(source line 252); the DOM coerces the float to an integer pixel count. -/
def probeCanvasWidth (env : Env) (font probeText : Str) : ℕ :=
  (Rat.floor (env.measure font probeText * 2)).toNat

/--
`canvasFontHeightForText(context, object, text)` (source lines 246-281):
render the probe text at inset `(10, 10)` on an off-screen canvas of height
`fontSize * 5` (with `fontSize = parseInt(resolveFont(object))`; a `NaN`
parse is modelled as 0, giving the same empty scan as JS's zero-iteration
loop) and width `measureText(text) * 2`, scan the pixels for the first and
last ink rows, store `first - 10` in `fontOffsetCache[context.font]`, and
return `last - first`.
-/
def canvasFontHeightForText (env : Env) (o : TextObj) (font probeText : Str)
    (c : Caches) : ℤ × Caches :=
  let inset : ℤ := 10
  let fontSize : ℕ := (parseIntLeading (resolveFont o)).getD 0
  let canvasHeight : ℕ := fontSize * 5
  let canvasWidth : ℕ := probeCanvasWidth env font probeText
  let fl := scanBounds canvasWidth canvasHeight (env.probeAlpha font probeText)
  (fl.2 - fl.1, { c with offsetC := updateFn c.offsetC font (fl.1 - inset) })

/-- `canvasFontHeight(context, object)` (source lines 241-244): measure the
descender probe `'Mqypgj'` into `fontDescenderCache[context.font]`, then
return the measurement of `'M'` (each probe also rewrites
`fontOffsetCache`). -/
def canvasFontHeight (env : Env) (o : TextObj) (font : Str) (c : Caches) :
    ℤ × Caches :=
  let r1 := canvasFontHeightForText env o font (("Mqypgj").toList) c
  let c1 := { r1.2 with descenderC := updateFn r1.2.descenderC font r1.1 }
  canvasFontHeightForText env o font (("M").toList) c1

/-- `fontHeight(context, object)` (source lines 209-239): when
`fontHeightCache[context.font]` is falsy, reset `fontOffsetCache` to 0 and
re-measure; `FONT_HEIGHT_METHOD` is the constant `'canvas'` (source line
17), so only the `canvas` branch of the switch is live.  Returns the value
then stored in `fontHeightCache[context.font]`, the updated caches, and
whether the expensive measurement ran. -/
def fontHeight (env : Env) (o : TextObj) (font : Str) (c : Caches) :
    ℤ × Caches × Bool :=
  if jsFalsyCache (c.heightC font) then
    let c1 := { c with offsetC := updateFn c.offsetC font 0 }
    let r := canvasFontHeight env o font c1
    let c2 := { r.2 with heightC := updateFn r.2.heightC font r.1 }
    ((c2.heightC font).getD 0, c2, true)
  else
    ((c.heightC font).getD 0, c, false)

/-- The height the canvas method measures for a font (the `'M'`-probe scan);
it does not depend on the cache state. -/
def measuredHeight (env : Env) (o : TextObj) (font : Str) : ℤ :=
  (canvasFontHeightForText env o font (("M").toList) emptyCaches).1

/-- `n` successive calls `fontHeight(context, object)` for the same font,
threading the caches; records each call's return value and whether it
re-measured. -/
def fontHeightCalls (env : Env) (o : TextObj) (font : Str) :
    ℕ → Caches → List (ℤ × Bool) × Caches
  | 0, c => ([], c)
  | n + 1, c =>
    let r := fontHeight env o font c
    let rest := fontHeightCalls env o font n r.2.1
    ((r.1, r.2.2) :: rest.1, rest.2)

/-- How many of the recorded calls performed the pixel-scanning
measurement. -/
def countMeasured (l : List (ℤ × Bool)) : ℕ := (l.filter fun p => p.2).length

/-- A sequence of `fontHeight` calls with varying text objects and font
identities, threading the caches. -/
def runFontHeightCalls (env : Env) : List (TextObj × Str) → Caches → Caches
  | [], c => c
  | p :: ps, c => runFontHeightCalls env ps (fontHeight env p.1 p.2 c).2.1

/-- The three caches are populated together: whenever `fontHeightCache`
holds an entry for a font, so do `fontOffsetCache` and
`fontDescenderCache`. -/
def cachesTogether (c : Caches) : Prop :=
  ∀ f, (c.heightC f).isSome → (c.offsetC f).isSome ∧ (c.descenderC f).isSome

/-- Concrete drawing surface whose probe renderings contain no ink at all
(every alpha sample is 0); text always measures 5 units wide. -/
def zeroInkEnv : Env := ⟨fun _ _ => 5, fun _ _ _ _ => 0⟩

/-- Concrete drawing surface whose probe renderings have ink in exactly one
pixel row (row 10): the scan yields `first = last = 10`, so the measured
height is 0. -/
def oneRowInkEnv : Env :=
  ⟨fun _ _ => 5, fun _ _ x y => if x = 0 ∧ y = 10 then 1 else 0⟩

/-- Concrete drawing surface whose probe renderings have ink in pixel rows
10 and 11: measured height 1 (nonzero). -/
def twoRowInkEnv : Env :=
  ⟨fun _ _ => 5, fun _ _ x y => if x = 0 ∧ (y = 10 ∨ y = 11) then 1 else 0⟩

/-- The drawing surface dimensions `context.canvas.width/height`. -/
structure CanvasDims where
  width : ℚ
  height : ℚ

/-- `typeof object.lineHeight !== 'undefined' ? object.lineHeight :
CanvasText.DEFAULT_LINE_HEIGHT` (source line 71). -/
def lineHeightVal (o : TextObj) : ℚ :=
  match o.lineHeight with
  | some v => v
  | none => DEFAULT_LINE_HEIGHT

/-- One `fillText` call issued by the row loop: the row text, the anchor
`x`, the loop's running `rowY` at this row, and the `y` actually passed to
`fillText` (`rowY - fontOffsetCache[font] + (rowHeight - fontHeight)/2`,
source line 96). -/
structure RowDraw where
  row : Str
  x : ℚ
  rowY : ℚ
  textY : ℚ

/-- The `rows.forEach` loop of `renderWordWrapRows` (source lines 93-100):
per row, measure the row width, record the `fillText` call, accumulate
`totalArea += fontHeight * width`, and advance `rowY += rowHeight`.  (The
`renderDecoration` call issues only paint strokes and touches no data, so it
is not recorded.) -/
def renderLoop (measure : Str → ℚ) (pad : Pad) (fh off rowH rowX : ℚ) :
    List Str → ℚ → ℚ → List RowDraw × ℚ
  | [], _, acc => ([], acc)
  | r :: rs, rowY, acc =>
    let w := calculateRowWidth measure pad r
    let rest := renderLoop measure pad fh off rowH rowX rs (rowY + rowH) (acc + fh * w)
    (⟨r, rowX, rowY, rowY - off + (rowH - fh) / 2⟩ :: rest.1, rest.2)

/--
`renderWordWrapRows(context, object, rows)` (source lines 70-103): resolve
the line-height multiplier, obtain `fontHeight` (populating the caches),
read `descenderHeight = fontDescenderCache[font] - fontHeightCache[font]`
and the baseline offset from the caches, compute the alignment anchor `rowX`
and the vertical start `rowY`, then run the row loop.  Returns the recorded
`fillText` calls, the accumulated `totalArea`, and the updated caches.
(A missing cache entry would read as JS `undefined` and poison the
arithmetic with `NaN`; it is modelled as 0 here, and every theorem about
this function instantiates it with populated caches — after `fontHeight`
the entries exist, see the C10 theorem `caches_populated_after_fontHeight`.)
-/
def renderWordWrapRows (env : Env) (dims : CanvasDims) (o : TextObj) (font : Str)
    (pad : Pad) (rows : List Str) (c : Caches) : List RowDraw × ℚ × Caches :=
  let lineHeight := lineHeightVal o
  let r := fontHeight env o font c
  let fh : ℚ := qInt r.1
  let rowHeight := fh * lineHeight
  let descenderHeight : ℚ :=
    qInt ((r.2.1.descenderC font).getD 0) - qInt ((r.2.1.heightC font).getD 0)
  let off : ℚ := qInt ((r.2.1.offsetC font).getD 0)
  let rowX0 := pad.left
  let rowX1 := if o.align = some (("right").toList) then dims.width - pad.right
    else rowX0
  let rowX := if o.align = some (("center").toList) then dims.width / 2 else rowX1
  let rowY0 := pad.top
  let rowY1 := if o.valign = some (("bottom").toList) then
      dims.height - qNat rows.length * rowHeight - descenderHeight - pad.bottom
    else rowY0
  let rowY := if o.valign = some (("middle").toList) then
      (dims.height - qNat rows.length * rowHeight) / 2
    else rowY1
  let dr := renderLoop (env.measure font) pad fh off rowHeight rowX rows rowY 0
  (dr.1, dr.2, r.2.1)

/-- `c.isDigit || a-f || A-F`: one character of the case-insensitive
`[a-f\d]` regex class. -/
def isHexDigitChar (c : Char) : Bool :=
  c.isDigit || (('a' ≤ c) && (c ≤ 'f')) || (('A' ≤ c) && (c ≤ 'F'))

/-- The numeric value of a hex digit (`parseInt(d, 16)` per digit). -/
def hexDigitVal (c : Char) : ℕ :=
  if c.isDigit then c.toNat - ('0').toNat
  else if ('a' ≤ c) && (c ≤ 'f') then c.toNat - ('a').toNat + 10
  else c.toNat - ('A').toNat + 10

/-- The body of the color regex after the optional `#`: exactly six hex
digits, in three two-digit capture groups, each decoded with
`parseInt(group, 16)`. -/
def hexBody (t : Str) : Option (ℕ × ℕ × ℕ) :=
  match t with
  | [c1, c2, c3, c4, c5, c6] =>
    if isHexDigitChar c1 && isHexDigitChar c2 && isHexDigitChar c3 &&
        isHexDigitChar c4 && isHexDigitChar c5 && isHexDigitChar c6 then
      some (hexDigitVal c1 * 16 + hexDigitVal c2,
            hexDigitVal c3 * 16 + hexDigitVal c4,
            hexDigitVal c5 * 16 + hexDigitVal c6)
    else none
  | _ => none

/-- `/^#?([a-f\d]{2})([a-f\d]{2})([a-f\d]{2})$/i.exec(color)` (source line
174): an optional leading `#` followed by exactly six hex digits; `none`
models a failed match (`exec` returning `null`). -/
def execHexColor (s : Str) : Option (ℕ × ℕ × ℕ) :=
  match s with
  | c :: t => if c = '#' then hexBody t else hexBody (c :: t)
  | [] => hexBody []

/-- The string `'rgba(' + r + ', ' + g + ', ' + b + ', ' + alpha + ')'`
(source line 175); `a` is the textual form of the alpha number. -/
def rgbaStr (r g b : ℕ) (a : Str) : Str :=
  ("rgba(").toList ++ natRepr r ++ (", ").toList ++ natRepr g ++
    (", ").toList ++ natRepr b ++ (", ").toList ++ a ++ [')']

/-- `resolveColor(color, alpha)` (source lines 172-179): with `alpha`
undefined, return `color` unchanged; otherwise decode the color with the
hex regex and build the rgba string.  When the regex does not match, the JS
code dereferences `null[1]` and throws a `TypeError`; the failure is
modelled as `none`. -/
def resolveColor (color : Str) (alpha : Option Str) : Option Str :=
  match alpha with
  | none => some color
  | some a =>
    match execHexColor color with
    | none => none
    | some (r, g, b) => some (rgbaStr r g b a)

/-- Modelled from the spec words for C9 (refinement side): a well-formed
6-hex-digit color string, case-insensitive, with an optional leading
`'#'`. -/
def specHexColor (s : Str) : Prop :=
  (s.length = 6 ∧ ∀ c ∈ s, isHexDigitChar c = true) ∨
  (∃ t, s = '#' :: t ∧ t.length = 6 ∧ ∀ c ∈ t, isHexDigitChar c = true)

/-- `drawText(context, object)` (source lines 47-68): resolve the padding
and the font (assigned to `context.font`), resolve the fill color (a
malformed hex color with a defined alpha throws — modelled as `none`),
word-wrap the text and render the rows; returns the accumulated area and
the updated metrics caches. -/
def drawText (env : Env) (dims : CanvasDims) (o : TextObj) (c : Caches) :
    Option (ℚ × Caches) :=
  let pad := resolvePadding o
  let font := resolveFont o
  match resolveColor o.color o.alpha with
  | none => none
  | some _ =>
    let rows := makeWordWrapRows (env.measure font) dims.width pad o.text
    let dr := renderWordWrapRows env dims o font pad rows c
    some (dr.2.1, dr.2.2)

/-- The caller-visible numeric result of `drawText`. -/
def drawTextArea (env : Env) (dims : CanvasDims) (o : TextObj) (c : Caches) :
    Option ℚ :=
  (drawText env dims o c).map Prod.fst

/-- The concrete scenario of C6: 2 rows, cached font height 20, line height
1 (so `rowHeight = 20`), cached descender-probe height 24 (so
`descenderHeight = 4`), surface 100×100, `paddingBottom` 5. -/
def c6Obj : TextObj :=
  { baseObj with
    valign := some (("bottom").toList)
    paddingBottom := some 5
    lineHeight := some 1 }

/-- Pre-populated caches for the C6 scenario. -/
def c6Caches : Caches :=
  ⟨fun s => if s = resolveFont c6Obj then some 20 else none,
   fun s => if s = resolveFont c6Obj then some 0 else none,
   fun s => if s = resolveFont c6Obj then some 24 else none⟩

end CanvasText

theorem qNat_eq (n : ℕ) : qNat n = (n : ℚ) := by
  simp [qNat, mkRat, Rat.normalize]

theorem qInt_eq (z : ℤ) : qInt z = (z : ℚ) := by
  simp [qInt, mkRat, Rat.normalize]

namespace CanvasText

theorem jsSplit_ne_nil (s : Str) : jsSplit s ≠ [] := by
  cases s with
  | nil => simp [jsSplit]
  | cons c t =>
    cases h : jsSplit t with
    | nil => simp [jsSplit, h]
    | cons w ws =>
      by_cases hc : c = ' ' <;> simp [jsSplit, h, hc]

@[simp] theorem sJoin_nil : sJoin [] = [] := rfl

@[simp] theorem sJoin_singleton (w : Str) : sJoin [w] = w := rfl

theorem sJoin_cons_cons (w x : Str) (ys : List Str) :
    sJoin (w :: x :: ys) = w ++ ' ' :: sJoin (x :: ys) := rfl

/-- Round trip: joining the split of a string with single spaces gives the
string back (JS `s.split(/ /).join(' ') === s`). -/
theorem sJoin_jsSplit (s : Str) : sJoin (jsSplit s) = s := by
  induction s with
  | nil => rfl
  | cons c t ih =>
    cases h : jsSplit t with
    | nil => exact absurd h (jsSplit_ne_nil t)
    | cons w ws =>
      rw [h] at ih
      by_cases hc : c = ' '
      · subst hc
        have hsplit : jsSplit (' ' :: t) = [] :: w :: ws := by simp [jsSplit, h]
        rw [hsplit, sJoin_cons_cons]
        simpa using ih
      · simp only [jsSplit, h, if_neg hc]
        cases ws with
        | nil => simpa using congrArg (c :: ·) ih
        | cons x xs =>
          rw [sJoin_cons_cons] at ih ⊢
          simpa using congrArg (c :: ·) ih

theorem sJoin_append (xs ys : List Str) (hx : xs ≠ []) (hy : ys ≠ []) :
    sJoin (xs ++ ys) = sJoin xs ++ ' ' :: sJoin ys := by
  induction xs with
  | nil => exact absurd rfl hx
  | cons w xs ih =>
    cases xs with
    | nil =>
      cases ys with
      | nil => exact absurd rfl hy
      | cons y ys => simp [sJoin_cons_cons]
    | cons x xs2 =>
      have h1 : (x :: xs2 : List Str) ≠ [] := by simp
      calc sJoin ((w :: x :: xs2) ++ ys) = w ++ ' ' :: sJoin ((x :: xs2) ++ ys) := rfl
        _ = w ++ ' ' :: (sJoin (x :: xs2) ++ ' ' :: sJoin ys) := by rw [ih h1]
        _ = sJoin (w :: x :: xs2) ++ ' ' :: sJoin ys := by
              simp [sJoin_cons_cons, List.append_assoc]

theorem sJoin_append_pair (A : List Str) (a b : Str) :
    sJoin (A ++ [a, b]) = sJoin (A ++ [a ++ ' ' :: b]) := by
  cases A with
  | nil => rfl
  | cons x xs =>
    have hA : (x :: xs : List Str) ≠ [] := by simp
    rw [sJoin_append _ [a, b] hA (by simp), sJoin_append _ [a ++ ' ' :: b] hA (by simp)]
    rfl

/-- Joining (with single spaces) the flushed output of the wrap fold started
in state `st` with pending words `ws` yields the previously closed rows
followed by all remaining words: the fold only re-groups words, it never
drops, duplicates, reorders or splits them. -/
theorem wrap_fold_join (measure : Str → ℚ) (W : ℚ) (pad : Pad) :
    ∀ (ws : List Str) (st : WrapSt), st.rowWords ≠ [] →
      sJoin (flushRows (ws.foldl (wrapStep measure W pad) st)) =
        sJoin (st.rows ++ [sJoin (st.rowWords ++ ws)]) := by
  intro ws
  induction ws with
  | nil =>
    intro st hst
    simp [flushRows, hst]
  | cons w ws ih =>
    intro st hst
    rw [List.foldl_cons]
    by_cases hc : W ≤ calculateRowWidth measure pad (sJoin (st.rowWords ++ [w])) ∧
        st.rowWords ≠ []
    · have hstep : wrapStep measure W pad st w =
          { rowWords := [w], rows := st.rows ++ [sJoin st.rowWords] } := by
        simp [wrapStep, hc]
      rw [hstep, ih _ (by simp)]
      show sJoin ((st.rows ++ [sJoin st.rowWords]) ++ [sJoin ([w] ++ ws)]) = _
      rw [List.append_assoc]
      show sJoin (st.rows ++ [sJoin st.rowWords, sJoin (w :: ws)]) = _
      rw [sJoin_append_pair, ← sJoin_append st.rowWords (w :: ws) hst (by simp)]
    · have hstep : wrapStep measure W pad st w =
          { rowWords := st.rowWords ++ [w], rows := st.rows } := by
        simp only [wrapStep]
        rw [if_neg hc]
      rw [hstep, ih _ (by simp [hst])]
      simp [List.append_assoc]

/-- Width/shape invariant of the wrap fold: every element of the accumulator
is one of the supplied words; the accumulator is empty, a single word, or
strictly narrower than the budget `W`; and every closed row is within budget
or is a single word. -/
theorem wrap_fold_inv (measure : Str → ℚ) (W : ℚ) (pad : Pad) (allW : List Str) :
    ∀ (ws : List Str) (st : WrapSt),
      (∀ w ∈ ws, w ∈ allW) →
      (∀ x ∈ st.rowWords, x ∈ allW) →
      (st.rowWords = [] ∨ (∃ w, st.rowWords = [w]) ∨
        calculateRowWidth measure pad (sJoin st.rowWords) < W) →
      (∀ r ∈ st.rows, calculateRowWidth measure pad r ≤ W ∨ r ∈ allW) →
      (∀ x ∈ (ws.foldl (wrapStep measure W pad) st).rowWords, x ∈ allW) ∧
      ((ws.foldl (wrapStep measure W pad) st).rowWords = [] ∨
        (∃ w, (ws.foldl (wrapStep measure W pad) st).rowWords = [w]) ∨
        calculateRowWidth measure pad
          (sJoin (ws.foldl (wrapStep measure W pad) st).rowWords) < W) ∧
      (∀ r ∈ (ws.foldl (wrapStep measure W pad) st).rows,
        calculateRowWidth measure pad r ≤ W ∨ r ∈ allW) := by
  intro ws
  induction ws with
  | nil =>
    intro st _ h1 h2 h3
    exact ⟨h1, h2, h3⟩
  | cons w ws ih =>
    intro st hws h1 h2 h3
    rw [List.foldl_cons]
    have hwAll : w ∈ allW := hws w (by simp)
    have hwsAll : ∀ x ∈ ws, x ∈ allW := fun x hx => hws x (by simp [hx])
    by_cases hc : W ≤ calculateRowWidth measure pad (sJoin (st.rowWords ++ [w])) ∧
        st.rowWords ≠ []
    · have hstep : wrapStep measure W pad st w =
          { rowWords := [w], rows := st.rows ++ [sJoin st.rowWords] } := by
        simp [wrapStep, hc]
      rw [hstep]
      refine ih _ hwsAll ?_ ?_ ?_
      · intro x hx
        simp at hx
        simpa [hx] using hwAll
      · exact Or.inr (Or.inl ⟨w, rfl⟩)
      · intro r hr
        simp only [List.mem_append, List.mem_singleton] at hr
        rcases hr with hr | hr
        · exact h3 r hr
        · subst hr
          rcases h2 with h2 | ⟨x, hx⟩ | h2
          · exact absurd h2 hc.2
          · rw [hx]
            exact Or.inr (h1 x (by simp [hx]))
          · exact Or.inl (le_of_lt h2)
    · have hstep : wrapStep measure W pad st w =
          { rowWords := st.rowWords ++ [w], rows := st.rows } := by
        simp only [wrapStep]
        rw [if_neg hc]
      rw [hstep]
      refine ih _ hwsAll ?_ ?_ h3
      · intro x hx
        simp only [List.mem_append, List.mem_singleton] at hx
        rcases hx with hx | hx
        · exact h1 x hx
        · simpa [hx] using hwAll
      · by_cases hrw : st.rowWords = []
        · refine Or.inr (Or.inl ⟨w, ?_⟩)
          simp [hrw]
        · have hlt : calculateRowWidth measure pad (sJoin (st.rowWords ++ [w])) < W := by
            rcases not_and_or.mp hc with h | h
            · exact lt_of_not_le h
            · exact absurd hrw (by simpa using h)
          exact Or.inr (Or.inr hlt)

/-- C1: every row produced by `makeWordWrapRows` has measured width
(`calculateRowWidth`: text width plus left and right padding) at most the
surface width `W`, except rows that consist of a single input word (an
over-wide word is placed alone and never split: such a row is literally one
of the words of `text.split(/ /)`). -/
theorem wrap_rows_width_bound (measure : Str → ℚ) (W : ℚ) (pad : Pad) (text : Str)
    (r : Str) (hr : r ∈ makeWordWrapRows measure W pad text) :
    calculateRowWidth measure pad r ≤ W ∨ r ∈ jsSplit text := by
  have hinv := wrap_fold_inv measure W pad (jsSplit text) (jsSplit text) ⟨[], []⟩
    (fun w hw => hw) (by simp) (Or.inl rfl) (by simp)
  obtain ⟨hmem, hshape, hrows⟩ := hinv
  rw [makeWordWrapRows, flushRows] at hr
  set st2 := (jsSplit text).foldl (wrapStep measure W pad) ⟨[], []⟩ with hst2
  by_cases hne : st2.rowWords ≠ []
  · rw [if_pos hne] at hr
    simp only [List.mem_append, List.mem_singleton] at hr
    rcases hr with hr | hr
    · exact hrows r hr
    · subst hr
      rcases hshape with h | ⟨x, hx⟩ | h
      · exact absurd h hne
      · rw [hx]
        exact Or.inr (hmem x (by simp [hx]))
      · exact Or.inl (le_of_lt h)
  · rw [if_neg hne] at hr
    exact hrows r hr

/-- C1 witness: a concrete wrap (`"aa bb cc"`, width budget 5, length as the
measure) in which the row `"aa"` is produced and satisfies the bound. -/
theorem wrap_rows_width_bound_witness :
    (("aa").toList ∈ makeWordWrapRows lenMeasure 5 pad0 (("aa bb cc").toList)) ∧
    (calculateRowWidth lenMeasure pad0 (("aa").toList) ≤ 5 ∨
      ("aa").toList ∈ jsSplit (("aa bb cc").toList)) :=
  ⟨by with_unfolding_all decide, wrap_rows_width_bound lenMeasure 5 pad0
    (("aa bb cc").toList) (("aa").toList) (by with_unfolding_all decide)⟩

/-- C5 (amended): joining all rows of `makeWordWrapRows` with single spaces
reproduces the original text exactly — runs of spaces are preserved, not
collapsed, because `split(/ /)` keeps the empty words between consecutive
spaces and `join(' ')` re-expands them. -/
theorem sJoin_makeWordWrapRows_eq_text (measure : Str → ℚ) (W : ℚ) (pad : Pad)
    (text : Str) : sJoin (makeWordWrapRows measure W pad text) = text := by
  obtain ⟨w, ws, hsplit⟩ : ∃ w ws, jsSplit text = w :: ws := by
    cases h : jsSplit text with
    | nil => exact absurd h (jsSplit_ne_nil text)
    | cons w ws => exact ⟨w, ws, rfl⟩
  have hstep1 : wrapStep measure W pad ⟨[], []⟩ w = ⟨[w], []⟩ := by
    simp [wrapStep]
  rw [makeWordWrapRows, hsplit, List.foldl_cons, hstep1,
    wrap_fold_join measure W pad ws ⟨[w], []⟩ (by simp)]
  show sJoin [sJoin (w :: ws)] = text
  rw [sJoin_singleton, ← hsplit, sJoin_jsSplit]

/-- C5 counterexample: for the text `"a  b"` (two consecutive spaces) with a
width budget large enough that nothing wraps, the rows join back to the
original `"a  b"`, not to the space-collapsed `"a b"` the claim demands. -/
theorem join_rows_double_space_counterexample :
    sJoin (makeWordWrapRows lenMeasure 100 pad0 (("a  b").toList)) = ("a  b").toList ∧
    ("a  b").toList ≠ ("a b").toList := by
  constructor
  · with_unfolding_all decide
  · decide

/-- C8: the empty input text yields exactly one row, the empty string
(`"".split(/ /)` is `[""]`, the single empty word is accumulated, and the
final flush pushes it). -/
theorem makeWordWrapRows_empty_text (measure : Str → ℚ) (W : ℚ) (pad : Pad) :
    makeWordWrapRows measure W pad [] = [[]] := by
  simp [makeWordWrapRows, jsSplit, wrapStep, flushRows]

/-- C2: `resolvePadding` resolves each of the four sides independently with
precedence per-side value, then shorthand `padding`, then 0; in particular
`{padding: 5, paddingLeft: 20}` resolves to `{left: 20, right: 5, top: 5,
bottom: 5}`. -/
theorem resolvePadding_precedence :
    (∀ o : TextObj,
      (resolvePadding o).left = o.paddingLeft.getD (o.padding.getD 0) ∧
      (resolvePadding o).right = o.paddingRight.getD (o.padding.getD 0) ∧
      (resolvePadding o).top = o.paddingTop.getD (o.padding.getD 0) ∧
      (resolvePadding o).bottom = o.paddingBottom.getD (o.padding.getD 0)) ∧
    resolvePadding { baseObj with padding := some 5, paddingLeft := some 20 } =
      ⟨20, 5, 5, 5⟩ := by
  constructor
  · intro o
    obtain ⟨t, fo, fs, ff, al, va, p, pl, pr, pt, pb, lh, co, alp⟩ := o
    refine ⟨?_, ?_, ?_, ?_⟩ <;>
      · cases p <;> cases pl <;> cases pr <;> cases pt <;> cases pb <;> rfl
  · rfl

/-- A fold whose step leaves every state unchanged returns its initial
state. -/
theorem foldl_fixed {α β : Type} (f : α → β → α) (l : List β) (a : α)
    (hf : ∀ (x : α) (b : β), b ∈ l → f x b = x) : l.foldl f a = a := by
  induction l generalizing a with
  | nil => rfl
  | cons b t ih =>
    rw [List.foldl_cons, hf a b (by simp)]
    exact ih a fun x b2 hb2 => hf x b2 (by simp [hb2])

/-- With no ink anywhere on the probe canvas, the scan leaves `first` at
`canvas.height` and `last` at 0. -/
theorem scanBounds_no_ink (w h : ℕ) (alpha : ℕ → ℕ → ℕ)
    (hz : ∀ x y, x < w → y < h → alpha x y = 0) :
    scanBounds w h alpha = (Int.ofNat h, 0) := by
  unfold scanBounds
  apply foldl_fixed
  intro fl y hy
  apply foldl_fixed
  intro fl2 x hx
  rw [hz x y (List.mem_range.mp hx) (List.mem_range.mp hy)]
  simp

@[simp] theorem updateFn_self (m : Str → Option ℤ) (k : Str) (v : ℤ) :
    updateFn m k v k = some v := by simp [updateFn]

theorem updateFn_ne (m : Str → Option ℤ) (k : Str) (v : ℤ) (g : Str) (hg : g ≠ k) :
    updateFn m k v g = m g := by simp [updateFn, hg]

/-- C3 (amended): a probe rendering with no ink pixels anywhere on the probe
canvas makes `canvasFontHeightForText` return `0 - canvasHeight =
-(5 × fontSize)` — a negative value, not the height 0 the claim states
(`first` stays at `canvas.height`, `last` stays at 0, and the function
returns `last - first`). -/
theorem no_ink_probe_height (env : Env) (o : TextObj) (font probeText : Str)
    (c : Caches)
    (hz : ∀ x y, x < probeCanvasWidth env font probeText →
      y < (parseIntLeading (resolveFont o)).getD 0 * 5 →
      env.probeAlpha font probeText x y = 0) :
    (canvasFontHeightForText env o font probeText c).1 =
      0 - Int.ofNat ((parseIntLeading (resolveFont o)).getD 0 * 5) := by
  simp [canvasFontHeightForText, scanBounds_no_ink _ _ _ hz]

set_option maxRecDepth 10000 in
/-- C3 counterexample: for the default font (`fontSize` 12, probe canvas
height 60) and an ink-free probe rendering, the measured height is `-60`,
not 0 as the claim states. -/
theorem no_ink_height_not_zero :
    (∀ x y, zeroInkEnv.probeAlpha (resolveFont baseObj) (("M").toList) x y = 0) ∧
    (canvasFontHeightForText zeroInkEnv baseObj (resolveFont baseObj)
      (("M").toList) emptyCaches).1 = -60 ∧ (-60 : ℤ) ≠ 0 :=
  ⟨fun _ _ => rfl, by with_unfolding_all decide, by decide⟩

set_option maxRecDepth 10000 in
/-- C3 witness for the amended claim, instantiated at the ink-free surface
and the default font: the height resolves to `-(12 × 5) = -60`. -/
theorem no_ink_probe_height_witness :
    (∀ x y, x < probeCanvasWidth zeroInkEnv (resolveFont baseObj) (("M").toList) →
      y < (parseIntLeading (resolveFont baseObj)).getD 0 * 5 →
      zeroInkEnv.probeAlpha (resolveFont baseObj) (("M").toList) x y = 0) ∧
    (canvasFontHeightForText zeroInkEnv baseObj (resolveFont baseObj)
      (("M").toList) emptyCaches).1 = -60 := by
  refine ⟨fun x y _ _ => rfl, ?_⟩
  have h := no_ink_probe_height zeroInkEnv baseObj (resolveFont baseObj)
    (("M").toList) emptyCaches (fun x y _ _ => rfl)
  rw [h]
  with_unfolding_all decide

/-- A `fontHeight` call that finds a truthy cached height returns it without
re-measuring and leaves the caches unchanged. -/
theorem fontHeight_hit (env : Env) (o : TextObj) (font : Str) (c : Caches) (v : ℤ)
    (hc : c.heightC font = some v) (hv : v ≠ 0) :
    fontHeight env o font c = (v, c, false) := by
  have hf : jsFalsyCache (some v) = false := by
    show (v == 0) = false
    exact beq_eq_false_iff_ne.mpr hv
  simp [fontHeight, hc, hf]

/-- A `fontHeight` call that finds a falsy cached height re-measures,
stores and returns the canvas-method measurement. -/
theorem fontHeight_miss (env : Env) (o : TextObj) (font : Str) (c : Caches)
    (hf : jsFalsyCache (c.heightC font) = true) :
    (fontHeight env o font c).1 = measuredHeight env o font ∧
    ((fontHeight env o font c).2.1).heightC font = some (measuredHeight env o font) ∧
    (fontHeight env o font c).2.2 = true := by
  simp [fontHeight, hf, canvasFontHeight, canvasFontHeightForText, measuredHeight]

/-- Once the cache holds a nonzero height for the font, every further call
returns exactly that value without measuring and changes nothing. -/
theorem fontHeightCalls_stable (env : Env) (o : TextObj) (font : Str) (v : ℤ)
    (hv : v ≠ 0) :
    ∀ (m : ℕ) (c : Caches), c.heightC font = some v →
      fontHeightCalls env o font m c = (List.replicate m (v, false), c) := by
  intro m
  induction m with
  | zero => intro c _; rfl
  | succ n ih =>
    intro c hc
    simp only [fontHeightCalls, fontHeight_hit env o font c v hc hv, ih c hc,
      List.replicate_succ]

theorem countMeasured_replicate_false (m : ℕ) (v : ℤ) :
    countMeasured (List.replicate m (v, false)) = 0 := by
  induction m with
  | zero => rfl
  | succ n ih =>
    simp only [List.replicate_succ, countMeasured, List.filter] at ih ⊢
    exact ih

/-- C4 (amended): for a font whose canvas-method measurement is nonzero
(truthy), any number of `fontHeight` calls from empty caches performs the
expensive pixel-scanning measurement at most once, and every call returns
that same measured height.  (A font measuring exactly 0 is re-measured on
every call, because a stored 0 fails the JS truthiness cache check — see the
counterexample.) -/
theorem fontHeight_measures_at_most_once (env : Env) (o : TextObj) (font : Str)
    (n : ℕ) (h : measuredHeight env o font ≠ 0) :
    countMeasured (fontHeightCalls env o font n emptyCaches).1 ≤ 1 ∧
    ∀ p ∈ (fontHeightCalls env o font n emptyCaches).1,
      p.1 = measuredHeight env o font := by
  cases n with
  | zero => exact ⟨by simp [fontHeightCalls, countMeasured], by simp [fontHeightCalls]⟩
  | succ m =>
    have hfalsy : jsFalsyCache (emptyCaches.heightC font) = true := rfl
    obtain ⟨h1, h2, h3⟩ := fontHeight_miss env o font emptyCaches hfalsy
    have hrest := fontHeightCalls_stable env o font (measuredHeight env o font) h m
      ((fontHeight env o font emptyCaches).2.1) h2
    have hlist : (fontHeightCalls env o font (m + 1) emptyCaches).1 =
        (measuredHeight env o font, true) ::
          List.replicate m (measuredHeight env o font, false) := by
      simp only [fontHeightCalls, hrest, h1, h3]
    constructor
    · rw [hlist]
      simp [countMeasured, List.filter, countMeasured_replicate_false]
    · intro p hp
      rw [hlist] at hp
      rcases List.mem_cons.mp hp with hp | hp
      · rw [hp]
      · rw [List.eq_of_mem_replicate hp]

set_option maxRecDepth 40000 in
/-- C4 counterexample: a font measuring height 0 is cached as 0, which is
falsy, so both of two successive `fontHeight` calls re-measure — the
expensive measurement is NOT performed at most once. -/
theorem zero_height_font_remeasured :
    ((fontHeightCalls oneRowInkEnv baseObj (resolveFont baseObj) 2
      emptyCaches).1.map Prod.snd) = [true, true] ∧
    measuredHeight oneRowInkEnv baseObj (resolveFont baseObj) = 0 := by
  constructor
  · with_unfolding_all decide
  · with_unfolding_all decide

set_option maxRecDepth 40000 in
/-- C4 witness for the amended claim: with a nonzero measured height, two
calls perform at most one measurement. -/
theorem fontHeight_measures_at_most_once_witness :
    measuredHeight twoRowInkEnv baseObj (resolveFont baseObj) ≠ 0 ∧
    countMeasured (fontHeightCalls twoRowInkEnv baseObj (resolveFont baseObj) 2
      emptyCaches).1 ≤ 1 :=
  ⟨by with_unfolding_all decide,
   (fontHeight_measures_at_most_once twoRowInkEnv baseObj (resolveFont baseObj) 2
     (by with_unfolding_all decide)).1⟩

/-- A cache-hit `fontHeight` call leaves the caches unchanged. -/
theorem fontHeight_hit_caches (env : Env) (o : TextObj) (font : Str) (c : Caches)
    (hf : jsFalsyCache (c.heightC font) = false) :
    (fontHeight env o font c).2.1 = c := by
  simp [fontHeight, hf]

/-- A cache-miss `fontHeight` call populates all three caches for the
called font. -/
theorem fontHeight_miss_populates (env : Env) (o : TextObj) (font : Str)
    (c : Caches) (hf : jsFalsyCache (c.heightC font) = true) :
    (((fontHeight env o font c).2.1).heightC font).isSome ∧
    (((fontHeight env o font c).2.1).offsetC font).isSome ∧
    (((fontHeight env o font c).2.1).descenderC font).isSome := by
  simp [fontHeight, hf, canvasFontHeight, canvasFontHeightForText]

/-- A `fontHeight` call for one font leaves every other font's cache
entries unchanged. -/
theorem fontHeight_other_fonts (env : Env) (o : TextObj) (font : Str) (c : Caches)
    (g : Str) (hg : g ≠ font) :
    ((fontHeight env o font c).2.1).heightC g = c.heightC g ∧
    ((fontHeight env o font c).2.1).offsetC g = c.offsetC g ∧
    ((fontHeight env o font c).2.1).descenderC g = c.descenderC g := by
  by_cases hf : jsFalsyCache (c.heightC font) = true
  · simp [fontHeight, hf, canvasFontHeight, canvasFontHeightForText, updateFn, hg]
  · have hf2 : jsFalsyCache (c.heightC font) = false := by simpa using hf
    simp [fontHeight, hf2]

/-- One `fontHeight` call preserves the together-population invariant. -/
theorem fontHeight_together (env : Env) (o : TextObj) (font : Str) (c : Caches)
    (hc : cachesTogether c) : cachesTogether ((fontHeight env o font c).2.1) := by
  intro g hg
  by_cases hf : jsFalsyCache (c.heightC font) = true
  · by_cases hgf : g = font
    · subst hgf
      obtain ⟨_, h2, h3⟩ := fontHeight_miss_populates env o g c hf
      exact ⟨h2, h3⟩
    · obtain ⟨e1, e2, e3⟩ := fontHeight_other_fonts env o font c g hgf
      rw [e1] at hg
      rw [e2, e3]
      exact hc g hg
  · have hf2 : jsFalsyCache (c.heightC font) = false := by simpa using hf
    rw [fontHeight_hit_caches env o font c hf2] at hg ⊢
    exact hc g hg

/-- A `fontHeight` call never removes a height-cache entry. -/
theorem fontHeight_heightC_mono (env : Env) (o : TextObj) (font : Str) (c : Caches)
    (g : Str) (hg : (c.heightC g).isSome) :
    (((fontHeight env o font c).2.1).heightC g).isSome := by
  by_cases hgf : g = font
  · subst hgf
    by_cases hf : jsFalsyCache (c.heightC g) = true
    · exact (fontHeight_miss_populates env o g c hf).1
    · have hf2 : jsFalsyCache (c.heightC g) = false := by simpa using hf
      rw [fontHeight_hit_caches env o g c hf2]
      exact hg
  · rw [(fontHeight_other_fonts env o font c g hgf).1]
    exact hg

/-- After a `fontHeight` call, the height cache holds an entry for the
called font. -/
theorem fontHeight_heightC_self (env : Env) (o : TextObj) (font : Str) (c : Caches) :
    (((fontHeight env o font c).2.1).heightC font).isSome := by
  by_cases hf : jsFalsyCache (c.heightC font) = true
  · exact (fontHeight_miss_populates env o font c hf).1
  · have hf2 : jsFalsyCache (c.heightC font) = false := by simpa using hf
    rw [fontHeight_hit_caches env o font c hf2]
    cases hc : c.heightC font with
    | none => rw [hc] at hf; exact absurd rfl hf
    | some v => rfl

/-- Invariant of a whole call sequence: the together-population invariant is
preserved, height entries persist, and every called font ends with a height
entry. -/
theorem runFontHeightCalls_inv (env : Env) :
    ∀ (calls : List (TextObj × Str)) (c : Caches), cachesTogether c →
      cachesTogether (runFontHeightCalls env calls c) ∧
      (∀ g, (c.heightC g).isSome →
        ((runFontHeightCalls env calls c).heightC g).isSome) ∧
      (∀ f ∈ calls.map Prod.snd,
        ((runFontHeightCalls env calls c).heightC f).isSome) := by
  intro calls
  induction calls with
  | nil => exact fun c hc => ⟨hc, fun g h => h, by simp⟩
  | cons p ps ih =>
    intro c hc
    obtain ⟨i1, i2, i3⟩ := ih ((fontHeight env p.1 p.2 c).2.1)
      (fontHeight_together env p.1 p.2 c hc)
    refine ⟨i1, ?_, ?_⟩
    · intro g hg
      exact i2 g (fontHeight_heightC_mono env p.1 p.2 c g hg)
    · intro f hf
      simp only [List.map_cons, List.mem_cons] at hf
      rcases hf with hf | hf
      · subst hf
        exact i2 _ (fontHeight_heightC_self env p.1 p.2 c)
      · exact i3 f hf

/-- C10: starting from empty caches, after any sequence of `fontHeight`
calls (the `'canvas'` height method), every called font identity has an
entry in all three caches — `fontHeightCache`, `fontOffsetCache` and
`fontDescenderCache` are populated together within the measurement, so
`renderWordWrapRows`'s unconditional reads of the offset and descender
caches after its `fontHeight` call never see a missing entry. -/
theorem caches_populated_after_fontHeight (env : Env)
    (calls : List (TextObj × Str)) (f : Str) (hf : f ∈ calls.map Prod.snd) :
    ((runFontHeightCalls env calls emptyCaches).heightC f).isSome ∧
    ((runFontHeightCalls env calls emptyCaches).offsetC f).isSome ∧
    ((runFontHeightCalls env calls emptyCaches).descenderC f).isSome := by
  obtain ⟨i1, _, i3⟩ := runFontHeightCalls_inv env calls emptyCaches
    (fun g hg => by simp [emptyCaches] at hg)
  have hh := i3 f hf
  exact ⟨hh, (i1 f hh).1, (i1 f hh).2⟩

/-- C10 witness: a single concrete call populates all three caches for its
font. -/
theorem caches_populated_after_fontHeight_witness :
    resolveFont baseObj ∈ ([(baseObj, resolveFont baseObj)].map Prod.snd) ∧
    (((runFontHeightCalls zeroInkEnv [(baseObj, resolveFont baseObj)]
      emptyCaches).heightC (resolveFont baseObj)).isSome ∧
     ((runFontHeightCalls zeroInkEnv [(baseObj, resolveFont baseObj)]
      emptyCaches).offsetC (resolveFont baseObj)).isSome ∧
     ((runFontHeightCalls zeroInkEnv [(baseObj, resolveFont baseObj)]
      emptyCaches).descenderC (resolveFont baseObj)).isSome) :=
  ⟨by simp,
   caches_populated_after_fontHeight zeroInkEnv [(baseObj, resolveFont baseObj)]
     (resolveFont baseObj) (by simp)⟩

theorem renderLoop_cons_head (measure : Str → ℚ) (pad : Pad)
    (fh off rowH rowX : ℚ) (r : Str) (rs : List Str) (rowY acc : ℚ) :
    ((renderLoop measure pad fh off rowH rowX (r :: rs) rowY acc).1.map
      RowDraw.rowY).head? = some rowY := rfl

/-- C6: with `valign: 'bottom'`, the loop's vertical start — the `rowY` of
the first rendered row — is `surfaceHeight - rows.length × rowHeight -
descenderHeight - paddingBottom`, with `rowHeight = fontHeight ×
lineHeightMultiplier` and `descenderHeight = fontDescenderCache[font] -
fontHeightCache[font]` (the descender-probe height minus the base height). -/
theorem bottom_valign_first_rowY (env : Env) (dims : CanvasDims) (o : TextObj)
    (font : Str) (rows : List Str) (c : Caches)
    (hb : o.valign = some (("bottom").toList)) (hrows : rows ≠ []) :
    ((renderWordWrapRows env dims o font (resolvePadding o) rows c).1.map
      RowDraw.rowY).head? =
      some (dims.height -
        qNat rows.length * (qInt (fontHeight env o font c).1 * lineHeightVal o) -
        (qInt ((((fontHeight env o font c).2.1).descenderC font).getD 0) -
          qInt ((((fontHeight env o font c).2.1).heightC font).getD 0)) -
        (resolvePadding o).bottom) := by
  obtain ⟨r0, rs, rfl⟩ : ∃ r0 rs, rows = r0 :: rs := by
    cases rows with
    | nil => exact absurd rfl hrows
    | cons a b => exact ⟨a, b, rfl⟩
  simp [renderWordWrapRows, hb, renderLoop_cons_head]
  exact ⟨_, rfl, rfl⟩

set_option maxRecDepth 10000 in
/-- C6 witness: in the concrete scenario the first row's vertical start is
`100 - 2×20 - 4 - 5 = 51`. -/
theorem bottom_valign_first_rowY_witness :
    c6Obj.valign = some (("bottom").toList) ∧
    ([("a").toList, ("b").toList] : List Str) ≠ [] ∧
    ((renderWordWrapRows zeroInkEnv ⟨100, 100⟩ c6Obj (resolveFont c6Obj)
      (resolvePadding c6Obj) [("a").toList, ("b").toList] c6Caches).1.map
        RowDraw.rowY).head? = some 51 := by
  refine ⟨rfl, by simp, ?_⟩
  have h := bottom_valign_first_rowY zeroInkEnv ⟨100, 100⟩ c6Obj
    (resolveFont c6Obj) [("a").toList, ("b").toList] c6Caches rfl (by simp)
  rw [h]
  with_unfolding_all decide

/-- The accumulated `totalArea` of the row loop is the running accumulator
plus the sum over the rows of `fontHeight × rowWidth`. -/
theorem renderLoop_area (measure : Str → ℚ) (pad : Pad) (fh off rowH rowX : ℚ) :
    ∀ (rows : List Str) (rowY acc : ℚ),
      (renderLoop measure pad fh off rowH rowX rows rowY acc).2 =
        acc + ((rows.map fun r => fh * calculateRowWidth measure pad r).sum) := by
  intro rows
  induction rows with
  | nil => intro rowY acc; simp [renderLoop]
  | cons r rs ih =>
    intro rowY acc
    simp only [renderLoop, ih, List.map_cons, List.sum_cons]
    ring

/-- C7 (amended): a completing `drawText` call returns exactly the sum over
the produced rows of `fontHeight × rowWidth(row)`; that total is
non-negative whenever the font height and every row width are non-negative.
(It is NOT always non-negative: an ink-free font probe measures a negative
height and makes the total negative — see the counterexample.) -/
theorem drawText_area_eq_sum (env : Env) (dims : CanvasDims) (o : TextObj)
    (c : Caches) (hcol : (resolveColor o.color o.alpha).isSome) :
    drawTextArea env dims o c =
      some (((makeWordWrapRows (env.measure (resolveFont o)) dims.width
          (resolvePadding o) o.text).map
        (fun r => qInt (fontHeight env o (resolveFont o) c).1 *
          calculateRowWidth (env.measure (resolveFont o)) (resolvePadding o) r)).sum) ∧
    (0 ≤ qInt (fontHeight env o (resolveFont o) c).1 →
      (∀ r ∈ makeWordWrapRows (env.measure (resolveFont o)) dims.width
          (resolvePadding o) o.text,
        0 ≤ calculateRowWidth (env.measure (resolveFont o)) (resolvePadding o) r) →
      0 ≤ ((makeWordWrapRows (env.measure (resolveFont o)) dims.width
          (resolvePadding o) o.text).map
        (fun r => qInt (fontHeight env o (resolveFont o) c).1 *
          calculateRowWidth (env.measure (resolveFont o)) (resolvePadding o) r)).sum) := by
  obtain ⟨v, hv⟩ := Option.isSome_iff_exists.mp hcol
  constructor
  · simp only [drawTextArea, drawText, hv, renderWordWrapRows]
    rw [renderLoop_area]
    rw [zero_add]
    rfl
  · intro hfh hws
    apply List.sum_nonneg
    intro x hx
    simp only [List.mem_map] at hx
    obtain ⟨r, hr, rfl⟩ := hx
    exact mul_nonneg hfh (hws r hr)

set_option maxRecDepth 40000 in
/-- C7 counterexample: with an ink-free probe rendering (font height `-60`)
and a single row of width 5, `drawText` returns `-300 < 0` — the total area
is not always non-negative. -/
theorem drawText_area_negative :
    drawTextArea zeroInkEnv ⟨100, 100⟩ { baseObj with text := ("a").toList }
      emptyCaches = some (-300) ∧ ((-300 : ℚ) < 0) := by
  constructor
  · with_unfolding_all decide
  · with_unfolding_all decide

set_option maxRecDepth 40000 in
/-- C7 witness: with a probe measuring height 1 and one row of width 5, the
returned area is the sum `1 × 5 = 5 ≥ 0`. -/
theorem drawText_area_eq_sum_witness :
    drawTextArea twoRowInkEnv ⟨100, 100⟩ { baseObj with text := ("a").toList }
      emptyCaches = some 5 ∧ (0 : ℚ) ≤ 5 := by
  have h := (drawText_area_eq_sum twoRowInkEnv ⟨100, 100⟩
    { baseObj with text := ("a").toList } emptyCaches (by rfl)).1
  rw [h]
  constructor
  · with_unfolding_all decide
  · norm_num

/-- `hexBody` succeeds exactly on six hex digits. -/
theorem hexBody_isSome (t : Str) :
    (hexBody t).isSome ↔ (t.length = 6 ∧ ∀ c ∈ t, isHexDigitChar c = true) := by
  rcases t with _ | ⟨c1, _ | ⟨c2, _ | ⟨c3, _ | ⟨c4, _ | ⟨c5, _ | ⟨c6, _ | ⟨c7, t⟩⟩⟩⟩⟩⟩⟩
  · refine iff_of_false (by simp [hexBody]) ?_
    rintro ⟨hlen, -⟩
    simp at hlen
  · refine iff_of_false (by simp [hexBody]) ?_
    rintro ⟨hlen, -⟩
    simp at hlen
  · refine iff_of_false (by simp [hexBody]) ?_
    rintro ⟨hlen, -⟩
    simp at hlen
  · refine iff_of_false (by simp [hexBody]) ?_
    rintro ⟨hlen, -⟩
    simp at hlen
  · refine iff_of_false (by simp [hexBody]) ?_
    rintro ⟨hlen, -⟩
    simp at hlen
  · refine iff_of_false (by simp [hexBody]) ?_
    rintro ⟨hlen, -⟩
    simp at hlen
  · by_cases hb : (isHexDigitChar c1 && isHexDigitChar c2 && isHexDigitChar c3 &&
        isHexDigitChar c4 && isHexDigitChar c5 && isHexDigitChar c6) = true
    · refine iff_of_true (by simp [hexBody, hb]) ?_
      simp only [Bool.and_eq_true] at hb
      obtain ⟨⟨⟨⟨⟨h1, h2⟩, h3⟩, h4⟩, h5⟩, h6⟩ := hb
      refine ⟨rfl, ?_⟩
      intro c hc
      simp only [List.mem_cons, List.not_mem_nil, or_false] at hc
      rcases hc with rfl | rfl | rfl | rfl | rfl | rfl <;> assumption
    · refine iff_of_false (by simp [hexBody, hb]) ?_
      rintro ⟨-, hall⟩
      exact hb (by simp [hall c1 (by simp), hall c2 (by simp), hall c3 (by simp),
        hall c4 (by simp), hall c5 (by simp), hall c6 (by simp)])
  · refine iff_of_false (by simp [hexBody]) ?_
    rintro ⟨hlen, -⟩
    simp at hlen

/-- `execHexColor` succeeds exactly on the spec's well-formed colors. -/
theorem execHexColor_isSome (s : Str) :
    (execHexColor s).isSome ↔ specHexColor s := by
  rcases s with _ | ⟨c, t⟩
  · simp [execHexColor, hexBody, specHexColor]
  · by_cases hc : c = '#'
    · subst hc
      rw [show execHexColor ('#' :: t) = hexBody t from by simp [execHexColor],
        hexBody_isSome]
      constructor
      · intro h
        exact Or.inr ⟨t, rfl, h.1, h.2⟩
      · rintro (⟨h6, hall⟩ | ⟨t2, ht2, h6, hall⟩)
        · have := hall '#' (by simp)
          simp [isHexDigitChar] at this
        · obtain ⟨-, rfl⟩ := List.cons.inj ht2
          exact ⟨h6, hall⟩
    · rw [show execHexColor (c :: t) = hexBody (c :: t) from by simp [execHexColor, hc],
        hexBody_isSome]
      constructor
      · intro h
        exact Or.inl h
      · rintro (h | ⟨t2, ht2, -, -⟩)
        · exact h
        · exact absurd (List.cons.inj ht2).1 hc

/-- C9: `resolveColor` returns the color unchanged when alpha is undefined;
with alpha defined it succeeds exactly on well-formed 6-hex-digit colors
(case-insensitive, optional leading `#`), producing an `rgba(r, g, b,
alpha)` string, and fails (JS `TypeError` on the null match) otherwise; the
decoded bytes are the hex value, e.g. `('ff8000', 0.5)` gives
`'rgba(255, 128, 0, 0.5)'`. -/
theorem resolveColor_spec :
    (∀ color : Str, resolveColor color none = some color) ∧
    (∀ (color a : Str), (resolveColor color (some a)).isSome ↔ specHexColor color) ∧
    (∀ (color a : Str), specHexColor color →
      ∃ r g b, resolveColor color (some a) = some (rgbaStr r g b a)) ∧
    resolveColor (("ff8000").toList) (some (("0.5").toList)) =
      some (("rgba(255, 128, 0, 0.5)").toList) := by
  have hbridge : ∀ (color a : Str),
      (resolveColor color (some a)).isSome ↔ (execHexColor color).isSome := by
    intro color a
    cases hex : execHexColor color with
    | none => simp [resolveColor, hex]
    | some v =>
      obtain ⟨r, g, b⟩ := v
      simp [resolveColor, hex]
  refine ⟨fun color => rfl, ?_, ?_, by with_unfolding_all decide⟩
  · intro color a
    rw [hbridge color a, execHexColor_isSome]
  · intro color a hspec
    have hsome : (execHexColor color).isSome := (execHexColor_isSome color).mpr hspec
    obtain ⟨⟨r, g, b⟩, hv⟩ := Option.isSome_iff_exists.mp hsome
    exact ⟨r, g, b, by simp [resolveColor, hv]⟩

/-- C9 witness: the well-formed color `'ff8000'` with alpha defined
resolves to an rgba string. -/
theorem resolveColor_spec_witness :
    specHexColor (("ff8000").toList) ∧
    ∃ r g b, resolveColor (("ff8000").toList) (some (("0.5").toList)) =
      some (rgbaStr r g b (("0.5").toList)) :=
  ⟨Or.inl ⟨by decide, by decide⟩,
   resolveColor_spec.2.2.1 (("ff8000").toList) (("0.5").toList)
     (Or.inl ⟨by decide, by decide⟩)⟩

end CanvasText
